import Mathlib

/-!
Verification of the `minbar_data_preprocessor` service against its
natural-language specification.

The Python sources are shallowly embedded: strings are `List Char` or
`String`, fallible calls return `Option`/`Except`, and the behaviour of
external libraries (BeautifulSoup's `get_text`, the `re` substitutions for
the URL/email/mention/hashtag patterns, `langdetect.detect`, the database
drivers) is abstracted into explicit function parameters together with the
facts the code relies on, stated as hypotheses.
-/

namespace MDP

/-! ## Text cleaning (`app/processing/cleaning.py`)

`basic_text_clean` runs, in order: HTML-tag stripping (BeautifulSoup, with
a regex fallback `re.sub(r'<[^>]+>', ' ', text)` on parser failure), the
URL / email / mention / hashtag regex substitutions, the character-class
substitution `re.sub(r'[^\w\s]', ' ', text)`, and whitespace
normalisation `re.sub(r'\s+', ' ', text).strip()`.

`wordChar` models membership in the regex class `\w` (Unicode-aware) and
`isSpace` membership in `\s` / `str.strip()` whitespace; both are kept as
parameters so the theorems hold for the actual Unicode tables.
-/

/-- Python `str.strip()` on a list of characters: drop leading and trailing
whitespace. -/
def pyStrip (isSpace : Char → Bool) (l : List Char) : List Char :=
  ((l.dropWhile isSpace).reverse.dropWhile isSpace).reverse

/-- The whitespace-normalisation step `re.sub(r'\s+', ' ', text)`: every
maximal run of whitespace characters is replaced by a single `' '`. -/
def collapseWs (isSpace : Char → Bool) : List Char → List Char
  | [] => []
  | c :: cs =>
    if isSpace c then ' ' :: collapseWs isSpace (cs.dropWhile isSpace)
    else c :: collapseWs isSpace cs
  termination_by l => l.length
  decreasing_by
  · simp only [List.length_cons]
    exact Nat.lt_succ_of_le (List.dropWhile_sublist isSpace).length_le
  · simp

/-- The character-class substitution `re.sub(r'[^\w\s]', ' ', text)`:
characters that are neither word characters nor whitespace become `' '`. -/
def replaceNonWordSpace (wordChar isSpace : Char → Bool) (l : List Char) : List Char :=
  l.map fun c => if wordChar c || isSpace c then c else ' '

/-- The fallback tag stripper `re.sub(r'<[^>]+>', ' ', text)` used when
BeautifulSoup raises: a `'<'`, followed by at least one non-`'>'`
character, followed by `'>'`, is replaced by a single space; scanning is
leftmost, non-overlapping, resuming after the consumed `'>'`. -/
def stripTags : List Char → List Char
  | [] => []
  | c :: cs =>
    if h : c = '<' ∧ cs.takeWhile (fun d => !(d = '>')) ≠ [] ∧
        cs.dropWhile (fun d => !(d = '>')) ≠ [] then
      ' ' :: stripTags (cs.dropWhile (fun d => !(d = '>'))).tail
    else c :: stripTags cs
  termination_by l => l.length
  decreasing_by
  · simp only [List.length_cons]
    have h1 : (cs.dropWhile (fun d => !(d = '>'))).length ≤ cs.length :=
      (List.dropWhile_sublist _).length_le
    have h2 : (cs.dropWhile (fun d => !(d = '>'))).length ≠ 0 := by
      simpa [List.length_eq_zero] using h.2.2
    have h3 : ((cs.dropWhile (fun d => !(d = '>'))).tail).length =
        (cs.dropWhile (fun d => !(d = '>'))).length - 1 := List.length_tail _
    omega
  · simp

/-- Steps 5–6 of the pipeline: special-character removal followed by
whitespace normalisation and stripping. -/
def pyFinish (wordChar isSpace : Char → Bool) (l : List Char) : List Char :=
  pyStrip isSpace (collapseWs isSpace (replaceNonWordSpace wordChar isSpace l))

/-- `basic_text_clean` from `app/processing/cleaning.py`.

`getTextE` models `BeautifulSoup(text, parser).get_text(separator=" ")`,
returning `.error` when the parser raises (in which case the code falls
back to `stripTags`); `urlSub`, `emailSub`, `mentionSub`, `hashtagSub`
model the four `re.sub(..., ' ', text)` calls for `URL_REGEX`,
`EMAIL_REGEX`, `MENTION_REGEX`, `HASHTAG_REGEX`. `none` models a `None`
argument. -/
def basic_text_clean (wordChar isSpace : Char → Bool)
    (getTextE : List Char → Except Unit (List Char))
    (urlSub emailSub mentionSub hashtagSub : List Char → List Char) :
    Option (List Char) → List Char
  | none => []
  | some s =>
    if pyStrip isSpace s = [] then []
    else
      let s1 := match getTextE s with
        | .ok r => r
        | .error _ => stripTags s
      pyFinish wordChar isSpace (hashtagSub (mentionSub (emailSub (urlSub s1))))

section CleaningLemmas

variable {wordChar isSpace : Char → Bool}

theorem head?_dropWhile_not {p : Char → Bool} :
    ∀ {l : List Char} {c : Char}, (l.dropWhile p).head? = some c → p c = false := by
  intro l
  induction l with
  | nil => intro c h; simp [List.dropWhile] at h
  | cons a as ih =>
    intro c h
    rw [List.dropWhile_cons] at h
    by_cases ha : p a = true
    · rw [if_pos ha] at h
      exact ih h
    · rw [if_neg ha] at h
      rw [List.head?_cons, Option.some.injEq] at h
      subst h
      simpa using ha

theorem mem_dropWhile_imp {p : Char → Bool} :
    ∀ {l : List Char} {c : Char}, c ∈ l.dropWhile p → c ∈ l := by
  intro l
  induction l with
  | nil => intro c h; simp [List.dropWhile] at h
  | cons a as ih =>
    intro c h
    rw [List.dropWhile_cons] at h
    by_cases ha : p a = true
    · rw [if_pos ha] at h
      exact List.mem_cons_of_mem a (ih h)
    · rw [if_neg ha] at h
      exact h

theorem getLast?_dropWhile {p : Char → Bool} :
    ∀ {l : List Char}, l.dropWhile p ≠ [] → (l.dropWhile p).getLast? = l.getLast? := by
  intro l
  induction l with
  | nil => intro h; simp [List.dropWhile] at h
  | cons a as ih =>
    intro h
    rw [List.dropWhile_cons] at h ⊢
    by_cases ha : p a = true
    · rw [if_pos ha] at h ⊢
      have has : as ≠ [] := by
        intro he; apply h; simp [he, List.dropWhile]
      rw [ih h]
      match as, has with
      | b :: bs, _ => simp [List.getLast?_cons_cons]
    · rw [if_neg ha]

theorem mem_collapseWs {l : List Char} {c : Char} (h : c ∈ collapseWs isSpace l) :
    c = ' ' ∨ (c ∈ l ∧ isSpace c = false) := by
  induction l using collapseWs.induct isSpace with
  | case1 => simp [collapseWs] at h
  | case2 a as ha ih =>
    rw [collapseWs, if_pos ha] at h
    rcases List.mem_cons.mp h with h | h
    · exact Or.inl h
    · rcases ih h with h | ⟨hm, hs⟩
      · exact Or.inl h
      · exact Or.inr ⟨List.mem_cons_of_mem a (mem_dropWhile_imp hm), hs⟩
  | case3 a as ha ih =>
    rw [collapseWs, if_neg ha] at h
    rcases List.mem_cons.mp h with h | h
    · subst h; exact Or.inr ⟨List.mem_cons_self _ _, by simpa using ha⟩
    · rcases ih h with h | ⟨hm, hs⟩
      · exact Or.inl h
      · exact Or.inr ⟨List.mem_cons_of_mem a hm, hs⟩

theorem head?_collapseWs_space {l : List Char} {c : Char}
    (h : (collapseWs isSpace l).head? = some c) (hc : isSpace c = true) :
    ∃ d, l.head? = some d ∧ isSpace d = true := by
  match l with
  | [] => simp [collapseWs] at h
  | a :: as =>
    by_cases ha : isSpace a
    · exact ⟨a, rfl, ha⟩
    · rw [collapseWs, if_neg ha, List.head?_cons, Option.some.injEq] at h
      subst h
      exact absurd hc (by simpa using ha)

theorem chain'_collapseWs (l : List Char) :
    List.Chain' (fun a b => isSpace a = false ∨ isSpace b = false) (collapseWs isSpace l) := by
  induction l using collapseWs.induct isSpace with
  | case1 => simp [collapseWs]
  | case2 a as ha ih =>
    rw [collapseWs, if_pos ha]
    rw [List.chain'_cons']
    refine ⟨?_, ih⟩
    intro b hb
    by_cases hsb : isSpace b
    · obtain ⟨d, hd, hds⟩ := head?_collapseWs_space hb hsb
      have := head?_dropWhile_not hd
      rw [this] at hds
      exact absurd hds (by simp)
    · exact Or.inr (by simpa using hsb)
  | case3 a as ha ih =>
    rw [collapseWs, if_neg ha]
    rw [List.chain'_cons']
    exact ⟨fun b _ => Or.inl (by simpa using ha), ih⟩

theorem collapseWs_eq_self {l : List Char}
    (hch : List.Chain' (fun a b => isSpace a = false ∨ isSpace b = false) l)
    (hsp : ∀ c ∈ l, isSpace c = true → c = ' ') :
    collapseWs isSpace l = l := by
  induction l using collapseWs.induct isSpace with
  | case1 => rw [collapseWs]
  | case2 a as ha ih =>
    have haeq : a = ' ' := hsp a (List.mem_cons_self _ _) ha
    have hdrop : as.dropWhile isSpace = as := by
      match as with
      | [] => rfl
      | b :: bs =>
        have hrb : isSpace a = false ∨ isSpace b = false :=
          (List.chain'_cons.mp hch).1
        have hb : isSpace b = false := by
          rcases hrb with h | h
          · rw [ha] at h; exact absurd h (by simp)
          · exact h
        rw [List.dropWhile_cons, hb]
        simp
    rw [collapseWs, if_pos ha, hdrop, haeq]
    rw [hdrop] at ih
    rw [ih (List.Chain'.tail hch) fun c hc hs => hsp c (List.mem_cons_of_mem a hc) hs]
  | case3 a as ha ih =>
    rw [collapseWs, if_neg ha]
    rw [ih (List.Chain'.tail hch) fun c hc hs => hsp c (List.mem_cons_of_mem a hc) hs]

theorem pyStrip_eq_self {l : List Char}
    (hhd : ∀ c, l.head? = some c → isSpace c = false)
    (hlast : ∀ c, l.getLast? = some c → isSpace c = false) :
    pyStrip isSpace l = l := by
  have h1 : l.dropWhile isSpace = l := by
    match l with
    | [] => rfl
    | a :: as =>
      rw [List.dropWhile_cons, hhd a rfl]
      simp
  have h2 : l.reverse.dropWhile isSpace = l.reverse := by
    match hr : l.reverse with
    | [] => rfl
    | a :: as =>
      have : l.getLast? = some a := by
        rw [← List.head?_reverse, hr, List.head?_cons]
      rw [List.dropWhile_cons, hlast a this]
      simp
  rw [pyStrip, h1, h2, List.reverse_reverse]

theorem mem_pyStrip {l : List Char} {c : Char} (h : c ∈ pyStrip isSpace l) : c ∈ l := by
  rw [pyStrip] at h
  rw [List.mem_reverse] at h
  have h2 := mem_dropWhile_imp h
  rw [List.mem_reverse] at h2
  exact mem_dropWhile_imp h2

theorem head?_pyStrip {l : List Char} {c : Char}
    (h : (pyStrip isSpace l).head? = some c) : isSpace c = false := by
  rw [pyStrip, List.head?_reverse] at h
  have hne : (l.dropWhile isSpace).reverse.dropWhile isSpace ≠ [] := by
    intro he
    rw [he] at h
    simp at h
  rw [getLast?_dropWhile hne, List.getLast?_reverse] at h
  exact head?_dropWhile_not h

theorem getLast?_pyStrip {l : List Char} {c : Char}
    (h : (pyStrip isSpace l).getLast? = some c) : isSpace c = false := by
  rw [pyStrip, List.getLast?_reverse] at h
  exact head?_dropWhile_not h

theorem chain'_pyStrip {R : Char → Char → Prop} {l : List Char}
    (h : List.Chain' R l) : List.Chain' R (pyStrip isSpace l) := by
  have hsub : pyStrip isSpace l <:+: l := by
    have h1 : l.dropWhile isSpace <:+ l := List.dropWhile_suffix isSpace
    have h2 : (l.dropWhile isSpace).reverse.dropWhile isSpace <:+
        (l.dropWhile isSpace).reverse := List.dropWhile_suffix isSpace
    have h3 : pyStrip isSpace l <+: l.dropWhile isSpace := by
      rw [← List.reverse_suffix]
      simpa [pyStrip] using h2
    exact List.IsInfix.trans (List.IsPrefix.isInfix h3) (List.IsSuffix.isInfix h1)
  exact List.Chain'.infix h hsub

end CleaningLemmas

section CleaningMain

variable {wordChar isSpace : Char → Bool}

theorem mem_replaceNonWordSpace {l : List Char} {c : Char}
    (h : c ∈ replaceNonWordSpace wordChar isSpace l) :
    c = ' ' ∨ (wordChar c || isSpace c) = true := by
  rw [replaceNonWordSpace, List.mem_map] at h
  obtain ⟨d, _, hd⟩ := h
  by_cases hc : (wordChar d || isSpace d) = true
  · rw [if_pos hc] at hd
    subst hd
    exact Or.inr hc
  · rw [if_neg hc] at hd
    exact Or.inl hd.symm

theorem replaceNonWordSpace_eq_self {l : List Char} (hsp : isSpace ' ' = true)
    (h : ∀ c ∈ l, wordChar c = true ∨ c = ' ') :
    replaceNonWordSpace wordChar isSpace l = l := by
  induction l with
  | nil => rfl
  | cons a as ih =>
    rw [replaceNonWordSpace, List.map_cons]
    have ha : (if (wordChar a || isSpace a) = true then a else ' ') = a := by
      rcases h a (List.mem_cons_self _ _) with hw | hw
      · rw [if_pos]
        simp [hw]
      · subst hw
        rw [if_pos]
        simp [hsp]
    have has := ih fun c hc => h c (List.mem_cons_of_mem a hc)
    rw [replaceNonWordSpace] at has
    rw [ha, has]

/-- Every string produced by the special-character + whitespace
normalisation tail of the pipeline consists of word characters and single
interior `' '` separators, with no whitespace at either end. -/
theorem pyFinish_facts (wordChar isSpace : Char → Bool) (m : List Char) :
    (∀ c ∈ pyFinish wordChar isSpace m, wordChar c = true ∨ c = ' ') ∧
    (∀ c ∈ pyFinish wordChar isSpace m, isSpace c = true → c = ' ') ∧
    List.Chain' (fun a b => isSpace a = false ∨ isSpace b = false)
      (pyFinish wordChar isSpace m) ∧
    (∀ c, (pyFinish wordChar isSpace m).head? = some c → isSpace c = false) ∧
    (∀ c, (pyFinish wordChar isSpace m).getLast? = some c → isSpace c = false) := by
  refine ⟨?_, ?_, ?_, ?_, ?_⟩
  · intro c hc
    rcases mem_collapseWs (mem_pyStrip hc) with h | ⟨hm, hs⟩
    · exact Or.inr h
    · rcases mem_replaceNonWordSpace hm with h | h
      · exact Or.inr h
      · rcases Bool.or_eq_true_iff.mp h with h | h
        · exact Or.inl h
        · rw [h] at hs
          exact absurd hs (by simp)
  · intro c hc hspc
    rcases mem_collapseWs (mem_pyStrip hc) with h | ⟨_, hs⟩
    · exact h
    · rw [hspc] at hs
      exact absurd hs (by simp)
  · exact chain'_pyStrip (chain'_collapseWs _)
  · intro c hc
    exact head?_pyStrip hc
  · intro c hc
    exact getLast?_pyStrip hc

theorem pyFinish_eq_self {l : List Char} (hsp : isSpace ' ' = true)
    (hmem : ∀ c ∈ l, wordChar c = true ∨ c = ' ')
    (hsponly : ∀ c ∈ l, isSpace c = true → c = ' ')
    (hch : List.Chain' (fun a b => isSpace a = false ∨ isSpace b = false) l)
    (hhd : ∀ c, l.head? = some c → isSpace c = false)
    (hlast : ∀ c, l.getLast? = some c → isSpace c = false) :
    pyFinish wordChar isSpace l = l := by
  rw [pyFinish, replaceNonWordSpace_eq_self hsp hmem, collapseWs_eq_self hch hsponly,
    pyStrip_eq_self hhd hlast]

/-- Re-cleaning a cleaned string is the identity: the key fixed-point fact
behind idempotence. -/
theorem basic_text_clean_fix
    (getTextE : List Char → Except Unit (List Char))
    (urlSub emailSub mentionSub hashtagSub : List Char → List Char)
    (hsp : isSpace ' ' = true)
    (hget : ∀ m, (∀ c ∈ m, wordChar c = true ∨ c = ' ') → getTextE m = .ok m)
    (hurl : ∀ m, (∀ c ∈ m, wordChar c = true ∨ c = ' ') → urlSub m = m)
    (hemail : ∀ m, (∀ c ∈ m, wordChar c = true ∨ c = ' ') → emailSub m = m)
    (hmention : ∀ m, (∀ c ∈ m, wordChar c = true ∨ c = ' ') → mentionSub m = m)
    (hhash : ∀ m, (∀ c ∈ m, wordChar c = true ∨ c = ' ') → hashtagSub m = m)
    (m : List Char) :
    basic_text_clean wordChar isSpace getTextE urlSub emailSub mentionSub hashtagSub
      (some (pyFinish wordChar isSpace m)) = pyFinish wordChar isSpace m := by
  obtain ⟨hmem, hsponly, hch, hhd, hlast⟩ := pyFinish_facts wordChar isSpace m
  have hstrip : pyStrip isSpace (pyFinish wordChar isSpace m) =
      pyFinish wordChar isSpace m := pyStrip_eq_self hhd hlast
  by_cases hy : pyFinish wordChar isSpace m = []
  · rw [basic_text_clean, if_pos (by rw [hstrip, hy]), hy]
  · rw [basic_text_clean, if_neg (by rw [hstrip]; exact hy)]
    rw [hget _ hmem]
    show pyFinish wordChar isSpace
        (hashtagSub (mentionSub (emailSub (urlSub (pyFinish wordChar isSpace m))))) =
      pyFinish wordChar isSpace m
    rw [hurl _ hmem, hemail _ hmem, hmention _ hmem, hhash _ hmem]
    exact pyFinish_eq_self hsp hmem hsponly hch hhd hlast

end CleaningMain

/-- C4: the text cleaner is idempotent: `basic_text_clean
(basic_text_clean x) = basic_text_clean x` for every input `x`.  Stated
for any behaviour of the external markup stripper and of the four
URL/email/mention/hashtag regex substitutions that is the identity on
strings consisting only of word characters and `' '` — which is true of
the real ones, since each of those patterns can only match a string
containing one of the non-word, non-space characters `:`/`@`/`#`/`<`/`&`. -/
theorem basic_text_clean_idempotent (wordChar isSpace : Char → Bool)
    (getTextE : List Char → Except Unit (List Char))
    (urlSub emailSub mentionSub hashtagSub : List Char → List Char)
    (hsp : isSpace ' ' = true)
    (hget : ∀ m, (∀ c ∈ m, wordChar c = true ∨ c = ' ') → getTextE m = .ok m)
    (hurl : ∀ m, (∀ c ∈ m, wordChar c = true ∨ c = ' ') → urlSub m = m)
    (hemail : ∀ m, (∀ c ∈ m, wordChar c = true ∨ c = ' ') → emailSub m = m)
    (hmention : ∀ m, (∀ c ∈ m, wordChar c = true ∨ c = ' ') → mentionSub m = m)
    (hhash : ∀ m, (∀ c ∈ m, wordChar c = true ∨ c = ' ') → hashtagSub m = m)
    (x : Option (List Char)) :
    basic_text_clean wordChar isSpace getTextE urlSub emailSub mentionSub hashtagSub
      (some (basic_text_clean wordChar isSpace getTextE urlSub emailSub mentionSub
        hashtagSub x)) =
    basic_text_clean wordChar isSpace getTextE urlSub emailSub mentionSub hashtagSub x := by
  match x with
  | none =>
    show basic_text_clean wordChar isSpace getTextE urlSub emailSub mentionSub hashtagSub
      (some []) = []
    rw [basic_text_clean,
      if_pos (show pyStrip isSpace ([] : List Char) = [] from rfl)]
  | some s =>
    by_cases hs : pyStrip isSpace s = []
    · have h1 : basic_text_clean wordChar isSpace getTextE urlSub emailSub mentionSub
          hashtagSub (some s) = [] := by
        rw [basic_text_clean, if_pos hs]
      rw [h1]
      rw [basic_text_clean,
        if_pos (show pyStrip isSpace ([] : List Char) = [] from rfl)]
    · have h1 : basic_text_clean wordChar isSpace getTextE urlSub emailSub mentionSub
          hashtagSub (some s) =
          pyFinish wordChar isSpace (hashtagSub (mentionSub (emailSub (urlSub
            (match getTextE s with | .ok r => r | .error _ => stripTags s))))) := by
        rw [basic_text_clean, if_neg hs]
      rw [h1]
      exact basic_text_clean_fix getTextE urlSub emailSub mentionSub hashtagSub hsp
        hget hurl hemail hmention hhash _

/-- Witness for C4: a concrete instantiation (ASCII word characters, the
plain space, an identity markup stripper and substitutions) at the
concrete input "hi". -/
theorem basic_text_clean_idempotent_witness :
    basic_text_clean (fun c => c.isAlphanum) (fun c => c == ' ')
      (fun s => Except.ok s) id id id id
      (some (basic_text_clean (fun c => c.isAlphanum) (fun c => c == ' ')
        (fun s => Except.ok s) id id id id (some ['h', 'i']))) =
    basic_text_clean (fun c => c.isAlphanum) (fun c => c == ' ')
      (fun s => Except.ok s) id id id id (some ['h', 'i']) :=
  basic_text_clean_idempotent _ _ _ _ _ _ _ (by decide)
    (fun _ _ => rfl) (fun _ _ => rfl) (fun _ _ => rfl) (fun _ _ => rfl) (fun _ _ => rfl)
    (some ['h', 'i'])

/-- C9: `basic_text_clean` returns the empty string for a `None` input and
for whitespace-only input, and a markup-parser failure is not propagated:
the code falls back to the regex tag stripper `stripTags` and the rest of
the pipeline still runs, so a string is always returned. -/
theorem basic_text_clean_none_ws_and_fallback (wordChar isSpace : Char → Bool)
    (getTextE : List Char → Except Unit (List Char))
    (urlSub emailSub mentionSub hashtagSub : List Char → List Char) :
    basic_text_clean wordChar isSpace getTextE urlSub emailSub mentionSub hashtagSub
      none = [] ∧
    (∀ s, (∀ c ∈ s, isSpace c = true) →
      basic_text_clean wordChar isSpace getTextE urlSub emailSub mentionSub hashtagSub
        (some s) = []) ∧
    (∀ s e, getTextE s = .error e → pyStrip isSpace s ≠ [] →
      basic_text_clean wordChar isSpace getTextE urlSub emailSub mentionSub hashtagSub
        (some s) =
      pyFinish wordChar isSpace (hashtagSub (mentionSub (emailSub (urlSub
        (stripTags s)))))) := by
  refine ⟨rfl, ?_, ?_⟩
  · intro s hall
    have h1 : s.dropWhile isSpace = [] := List.dropWhile_eq_nil_iff.mpr hall
    have h2 : pyStrip isSpace s = [] := by
      rw [pyStrip, h1]
      rfl
    rw [basic_text_clean, if_pos h2]
  · intro s e herr hne
    rw [basic_text_clean, if_neg hne, herr]

/-- Witness for C9: a whitespace-only input cleans to `""`, and with a
failing markup parser the fallback pipeline result is returned, at the
concrete input "ab". -/
theorem basic_text_clean_none_ws_and_fallback_witness :
    basic_text_clean (fun c => c.isAlphanum) (fun c => c == ' ')
      (fun _ => Except.error ()) id id id id (some [' ', ' ']) = [] ∧
    basic_text_clean (fun c => c.isAlphanum) (fun c => c == ' ')
      (fun _ => Except.error ()) id id id id (some ['a', 'b']) =
      pyFinish (fun c => c.isAlphanum) (fun c => c == ' ') (stripTags ['a', 'b']) :=
  ⟨(basic_text_clean_none_ws_and_fallback _ _ _ _ _ _ _).2.1 [' ', ' '] (by decide),
   (basic_text_clean_none_ws_and_fallback _ _ _ _ _ _ _).2.2 ['a', 'b'] () rfl (by decide)⟩

/-! ## Language detection (`app/processing/nlp_tasks.py`) -/

/-- Python `str.isspace()`: true iff the string is nonempty and every
character is whitespace. -/
def pyIsSpaceStr (isSpace : Char → Bool) (s : List Char) : Bool :=
  !s.isEmpty && s.all isSpace

/-- `detect_language` from `app/processing/nlp_tasks.py`. `detectFn`
models `langdetect.detect`; `.error` stands for `LangDetectException` or
any other exception, both of which the code converts to `None`.  The
`not isinstance(text, str)` arm of the guard is unrepresentable here since
the argument is a string by type. -/
def detect_language (isSpace : Char → Bool)
    (detectFn : List Char → Except Unit String) (text : List Char) : Option String :=
  if pyIsSpaceStr isSpace text = true ∨ text.length < 10 then none
  else
    match detectFn (text.take 500) with
    | .ok lang => some lang
    | .error _ => none

/-- C7: `detect_language` returns `None` for text shorter than 10
characters or whitespace-only text; otherwise it calls detection on at
most the first 500 characters, and an inconclusive detection
(`LangDetectException`) yields `None` rather than an error. -/
theorem detect_language_spec (isSpace : Char → Bool)
    (detectFn : List Char → Except Unit String) (text : List Char) :
    (text.length < 10 → detect_language isSpace detectFn text = none) ∧
    ((∀ c ∈ text, isSpace c = true) → detect_language isSpace detectFn text = none) ∧
    (¬ text.length < 10 → ¬ (∀ c ∈ text, isSpace c = true) →
      detect_language isSpace detectFn text =
        match detectFn (text.take 500) with
        | .ok lang => some lang
        | .error _ => none) := by
  refine ⟨?_, ?_, ?_⟩
  · intro h
    rw [detect_language, if_pos (Or.inr h)]
  · intro h
    match text with
    | [] =>
      rw [detect_language, if_pos (Or.inr (by simp))]
    | c :: cs =>
      have : pyIsSpaceStr isSpace (c :: cs) = true := by
        rw [pyIsSpaceStr]
        simp only [List.isEmpty_cons, Bool.not_false, Bool.true_and]
        exact List.all_eq_true.mpr h
      rw [detect_language, if_pos (Or.inl this)]
  · intro hlen hsp
    have hps : ¬ pyIsSpaceStr isSpace text = true := by
      intro hc
      rw [pyIsSpaceStr, Bool.and_eq_true, List.all_eq_true] at hc
      exact hsp hc.2
    rw [detect_language, if_neg (by rintro (h | h) <;> [exact hps h; exact hlen h])]

/-- Witness for C7: short text gives `None`; an 11-character text is
detected on its own prefix, and a failing detector gives `None`. -/
theorem detect_language_spec_witness :
    detect_language (fun c => c == ' ') (fun _ => Except.ok "en")
      ['h', 'i'] = none ∧
    detect_language (fun c => c == ' ') (fun _ => Except.ok "en")
      [' ', ' ', ' ', ' ', ' ', ' ', ' ', ' ', ' ', ' ', ' '] = none ∧
    detect_language (fun c => c == ' ') (fun _ => Except.error ())
      ['a', 'b', 'c', 'd', 'e', 'f', 'g', 'h', 'i', 'j', 'k'] = none := by
  refine ⟨?_, ?_, ?_⟩
  · exact (detect_language_spec _ _ _).1 (by decide)
  · exact (detect_language_spec _ _ _).2.1 (by decide)
  · exact (detect_language_spec _ _ _).2.2 (by decide) (by decide)

/-! ## `ProcessedDocument` and its language-code validator
(`app/models/data_models.py`) -/

/-- The two shapes the `raw_mongo_id` field can take in a
`ProcessedDocument` (pydantic type `str | ObjectId`): a store-native
ObjectId, or its (24-hex-character) string form. -/
inductive IdVal where
  | oid (o : Nat)
  | strv (s : String)
deriving DecidableEq

/-- `v.lower().strip()` as the validator computes it: Python `str.lower`
modelled character-wise by `toLower`, then `str.strip()`. -/
def pyLowerStrip (toLower : Char → Char) (isSpace : Char → Bool)
    (s : List Char) : List Char :=
  pyStrip isSpace (s.map toLower)

/-- The `check_lang_code` field validator of `ProcessedDocument`
(`app/models/data_models.py`): `None` passes through; otherwise the value
is lowercased and stripped and anything whose length is not exactly 2 is
coerced to `None`. -/
def check_lang_code (toLower : Char → Char) (isSpace : Char → Bool) :
    Option (List Char) → Option (List Char)
  | none => none
  | some v =>
    let w := pyLowerStrip toLower isSpace v
    if w.length ≠ 2 then none else some w

/-- The `ProcessedDocument` pydantic model (`app/models/data_models.py`),
as the orchestrator hands it (via `model_dump()`) to the sink gateway. -/
structure ProcessedDocument where
  raw_mongo_id : IdVal
  source : String
  keyword_concept_id : Option String := none
  original_timestamp : Option Int := none
  retrieved_by_keyword : Option String := none
  keyword_language : Option (List Char) := none
  detected_language : Option (List Char) := none
  cleaned_text : Option (List Char) := none
  tokens : List String := []
  tokens_processed : List String := []
  lemmas : List String := []
  original_url : Option String := none
deriving DecidableEq

/-- Constructing a `ProcessedDocument`: pydantic runs `check_lang_code`
(mode "before") on both the `keyword_language` and `detected_language`
fields; all other fields are stored as given. -/
def mkProcessedDocument (toLower : Char → Char) (isSpace : Char → Bool)
    (raw_mongo_id : IdVal) (source : String) (keyword_concept_id : Option String)
    (original_timestamp : Option Int) (retrieved_by_keyword : Option String)
    (keyword_language detected_language cleaned_text : Option (List Char))
    (tokens tokens_processed lemmas : List String)
    (original_url : Option String) : ProcessedDocument :=
  { raw_mongo_id := raw_mongo_id
    source := source
    keyword_concept_id := keyword_concept_id
    original_timestamp := original_timestamp
    retrieved_by_keyword := retrieved_by_keyword
    keyword_language := check_lang_code toLower isSpace keyword_language
    detected_language := check_lang_code toLower isSpace detected_language
    cleaned_text := cleaned_text
    tokens := tokens
    tokens_processed := tokens_processed
    lemmas := lemmas
    original_url := original_url }

/-- C6: in every constructed `ProcessedDocument`, both language-code
fields go through `check_lang_code`: `None` stays `None`; a value whose
lowercased, stripped form is not exactly 2 characters long becomes
`None`; a 2-character form is kept in that lowercased, stripped form. -/
theorem mkProcessedDocument_lang_codes (toLower : Char → Char) (isSpace : Char → Bool)
    (raw_mongo_id : IdVal) (source : String) (keyword_concept_id : Option String)
    (original_timestamp : Option Int) (retrieved_by_keyword : Option String)
    (keyword_language detected_language cleaned_text : Option (List Char))
    (tokens tokens_processed lemmas : List String) (original_url : Option String) :
    ((mkProcessedDocument toLower isSpace raw_mongo_id source keyword_concept_id
        original_timestamp retrieved_by_keyword keyword_language detected_language
        cleaned_text tokens tokens_processed lemmas original_url).keyword_language =
      check_lang_code toLower isSpace keyword_language ∧
     (mkProcessedDocument toLower isSpace raw_mongo_id source keyword_concept_id
        original_timestamp retrieved_by_keyword keyword_language detected_language
        cleaned_text tokens tokens_processed lemmas original_url).detected_language =
      check_lang_code toLower isSpace detected_language) ∧
    check_lang_code toLower isSpace none = none ∧
    (∀ s, (pyLowerStrip toLower isSpace s).length ≠ 2 →
      check_lang_code toLower isSpace (some s) = none) ∧
    (∀ s, (pyLowerStrip toLower isSpace s).length = 2 →
      check_lang_code toLower isSpace (some s) =
        some (pyLowerStrip toLower isSpace s)) := by
  refine ⟨⟨rfl, rfl⟩, rfl, ?_, ?_⟩
  · intro s h
    rw [check_lang_code]
    exact if_pos h
  · intro s h
    rw [check_lang_code]
    exact if_neg (by rw [h]; simp)

/-- Witness for C6: `" EN "` is normalised to `"en"` and kept; `"eng"` is
coerced to `None`. -/
theorem mkProcessedDocument_lang_codes_witness :
    check_lang_code Char.toLower (fun c => c == ' ') (some [' ', 'E', 'N', ' ']) =
      some ['e', 'n'] ∧
    check_lang_code Char.toLower (fun c => c == ' ') (some ['e', 'n', 'g']) = none := by
  constructor
  · have h := (mkProcessedDocument_lang_codes Char.toLower (fun c => c == ' ')
      (IdVal.oid 0) "post" none none none none none none [] [] [] none).2.2.2
      [' ', 'E', 'N', ' '] (by decide)
    rw [h]
    decide
  · exact (mkProcessedDocument_lang_codes Char.toLower (fun c => c == ' ')
      (IdVal.oid 0) "post" none none none none none none [] [] [] none).2.2.1
      ['e', 'n', 'g'] (by decide)

/-! ## Document extraction (`app/main_processor.py`,
`extract_text_and_metadata`) -/

/-- A loosely typed value as raw MongoDB documents carry them. -/
inductive BVal where
  | oid (o : Nat)
  | str (s : String)
  | int (n : Int)
  | boolv (b : Bool)
deriving DecidableEq

/-- Python truthiness of such a value (`not doc_id`, `if ts_str`): an
`ObjectId` is always truthy; `""`, `0` and `False` are falsy. -/
def BVal.truthy : BVal → Bool
  | .oid _ => true
  | .str s => !(s == "")
  | .int n => !(n == 0)
  | .boolv b => b

/-- `isinstance(v, ObjectId)`. -/
def BVal.isOid : BVal → Bool
  | .oid _ => true
  | _ => false

/-- The nested `original_post_data` payload of a raw document. -/
structure Payload where
  text : Option BVal := none
  created_time : Option BVal := none
  attached_link : Option BVal := none
deriving DecidableEq

/-- `original_post_data` as stored: a dict, or some other (non-dict)
value, which the extractor replaces with an empty dict. -/
inductive OPD where
  | dict (p : Payload)
  | nondict (v : BVal)
deriving DecidableEq

/-- A raw MongoDB document, restricted to the keys
`extract_text_and_metadata` reads. A missing key is `none`. -/
structure RawDoc where
  id : Option BVal := none
  data_type : Option BVal := none
  keyword_concept_id : Option BVal := none
  retrieved_by_keyword : Option BVal := none
  keyword_language : Option BVal := none
  original_post_data : Option OPD := none
deriving DecidableEq

/-- `raw_doc.get("original_post_data", {})` followed by the
`isinstance(original_data, dict)` check: a missing or non-dict value
becomes the empty dict. -/
def payloadOf (d : RawDoc) : Payload :=
  match d.original_post_data with
  | some (.dict p) => p
  | _ => {}

/-- The intermediate metadata record the extractor builds. -/
structure ExtractedMeta where
  raw_mongo_id : Nat
  source : BVal
  keyword_concept_id : Option BVal
  original_timestamp : Option Int
  text : String
  retrieved_by_keyword : Option BVal
  keyword_language : Option BVal
  original_url : Option BVal
deriving DecidableEq

/-- `extract_text_and_metadata` from `app/main_processor.py`. `parseTs`
models `dateutil.parser.isoparse`, with `none` standing for the
`ValueError`/`TypeError` the code catches (leaving the timestamp null). -/
def extract_text_and_metadata (parseTs : BVal → Option Int) (d : RawDoc) :
    Option ExtractedMeta :=
  match d.id with
  | none => none
  | some v =>
    if !v.truthy || !v.isOid then none
    else
      match v with
      | .oid o =>
        let pd := payloadOf d
        some {
          raw_mongo_id := o
          source := d.data_type.getD (BVal.str "unknown")
          keyword_concept_id := d.keyword_concept_id
          original_timestamp :=
            match pd.created_time with
            | none => none
            | some tv => if tv.truthy then parseTs tv else none
          text := match pd.text with | some (.str s) => s | _ => ""
          retrieved_by_keyword := d.retrieved_by_keyword
          keyword_language := d.keyword_language
          original_url := pd.attached_link }
      | _ => none

/-- C5: the extractor accepts a raw document exactly when its `_id` is
present and is a store-native ObjectId (rejecting with `None`
otherwise), and on acceptance the record's `text` is always a string: the
payload's text when that is a string, and `""` when it is absent or not
a string. -/
theorem extract_text_and_metadata_spec (parseTs : BVal → Option Int) (d : RawDoc) :
    ((extract_text_and_metadata parseTs d).isSome ↔
      ∃ o, d.id = some (BVal.oid o)) ∧
    (∀ e, extract_text_and_metadata parseTs d = some e →
      ((∃ s, (payloadOf d).text = some (BVal.str s) ∧ e.text = s) ∨
       ((∀ s, (payloadOf d).text ≠ some (BVal.str s)) ∧ e.text = ""))) := by
  constructor
  · constructor
    · intro h
      rcases hid : d.id with _ | v
      · simp [extract_text_and_metadata, hid] at h
      · rcases v with o | s | n | b
        · exact ⟨o, rfl⟩
        · simp [extract_text_and_metadata, hid, BVal.truthy, BVal.isOid] at h
        · simp [extract_text_and_metadata, hid, BVal.truthy, BVal.isOid] at h
        · simp [extract_text_and_metadata, hid, BVal.truthy, BVal.isOid] at h
    · rintro ⟨o, hid⟩
      simp [extract_text_and_metadata, hid, BVal.truthy, BVal.isOid]
  · intro e he
    rcases hid : d.id with _ | v
    · simp [extract_text_and_metadata, hid] at he
    · rcases v with o | s | n | b
      · simp only [extract_text_and_metadata, hid, BVal.truthy, BVal.isOid,
          Bool.not_true, Bool.or_self, Bool.false_eq_true, if_false,
          Option.some.injEq] at he
        subst he
        rcases ht : (payloadOf d).text with _ | w
        · exact Or.inr ⟨by simp [ht], by simp [ht]⟩
        · rcases w with o' | s | n | b
          · exact Or.inr ⟨by simp [ht], by simp [ht]⟩
          · exact Or.inl ⟨s, rfl, by simp [ht]⟩
          · exact Or.inr ⟨by simp [ht], by simp [ht]⟩
          · exact Or.inr ⟨by simp [ht], by simp [ht]⟩
      · simp [extract_text_and_metadata, hid, BVal.truthy, BVal.isOid] at he
      · simp [extract_text_and_metadata, hid, BVal.truthy, BVal.isOid] at he
      · simp [extract_text_and_metadata, hid, BVal.truthy, BVal.isOid] at he

/-- Witness for C5: a document with an ObjectId `_id` is accepted, and one
whose `_id` is a string is rejected. -/
theorem extract_text_and_metadata_spec_witness :
    (extract_text_and_metadata (fun _ => none)
      { id := some (BVal.oid 5),
        original_post_data := some (OPD.dict { text := some (BVal.str "hey") }) }).isSome ∧
    ¬ (extract_text_and_metadata (fun _ => none)
      { id := some (BVal.str "abc") }).isSome := by
  constructor
  · exact (extract_text_and_metadata_spec (fun _ => none) _).1.mpr ⟨5, rfl⟩
  · intro h
    obtain ⟨o, ho⟩ := (extract_text_and_metadata_spec (fun _ => none) _).1.mp h
    simp at ho

/-! ## Sink gateway (`app/db/postgres_db.py`,
`insert_processed_data_batch`) -/

/-- The per-record id validation in `insert_processed_data_batch`: an
`ObjectId` is converted with `str(...)` and accepted; a string is
accepted iff its length is 24; anything else logs a warning and the
record is skipped. -/
def validRecordId : IdVal → Bool
  | .oid _ => true
  | .strv s => s.length == 24

/-- `batch_args`: the records submitted to the multi-row `executemany`
statement, in input order, skipping those with a malformed
`raw_mongo_id`. (The rest of the tuple preparation — `json.dumps` of the
three list fields and the `.get` defaults — cannot fail on well-typed
records, so the per-record `except` arm is reached only via the id
check.) -/
def preparedBatch (data : List ProcessedDocument) : List ProcessedDocument :=
  data.filter fun r => validRecordId r.raw_mongo_id

/-- `insert_processed_data_batch` from `app/db/postgres_db.py`. `poolOk`
false models `get_pool()` raising `ConnectionError` (caught: returns 0);
`txOk` false models an `asyncpg.PostgresError` or any other exception
inside the insert transaction (caught: returns 0, the transaction rolls
back).  On success the code returns `len(batch_args)`: the number of
records submitted, not the rows actually affected (`ON CONFLICT DO
NOTHING` hides conflicts). -/
def insert_processed_data_batch (poolOk txOk : Bool)
    (data : List ProcessedDocument) : Nat :=
  if data.isEmpty then 0
  else if !poolOk then 0
  else if (preparedBatch data).isEmpty then 0
  else if txOk then (preparedBatch data).length else 0

/-- C2: for a non-empty input (with the pool available), a successful
transaction returns the number of records submitted — the input length
minus the records skipped for a malformed source identifier — while a
transaction-level failure returns 0; a malformed record is skipped at the
record boundary and every well-formed record is still submitted. -/
theorem insert_processed_data_batch_spec (txOk : Bool)
    (data : List ProcessedDocument) (hne : data ≠ []) :
    (txOk = true → insert_processed_data_batch true txOk data =
      data.length - data.countP (fun r => !validRecordId r.raw_mongo_id)) ∧
    (txOk = false → insert_processed_data_batch true txOk data = 0) ∧
    (∀ r ∈ data, validRecordId r.raw_mongo_id = true → r ∈ preparedBatch data) := by
  have hcount : (preparedBatch data).length =
      data.length - data.countP (fun r => !validRecordId r.raw_mongo_id) := by
    have h1 : (preparedBatch data).length =
        data.countP (fun r => validRecordId r.raw_mongo_id) :=
      (List.countP_eq_length_filter _ _).symm
    have h2 : data.length = data.countP (fun r => validRecordId r.raw_mongo_id) +
        data.countP (fun r => !validRecordId r.raw_mongo_id) := by
      simpa using List.length_eq_countP_add_countP
        (l := data) (p := fun r => validRecordId r.raw_mongo_id)
    omega
  refine ⟨?_, ?_, ?_⟩
  · intro ht
    subst ht
    rw [insert_processed_data_batch, if_neg (by simpa using hne)]
    simp only [Bool.not_true, Bool.false_eq_true, if_false]
    by_cases hp : (preparedBatch data).isEmpty = true
    · rw [if_pos hp]
      have h0 : preparedBatch data = [] := List.isEmpty_iff.mp hp
      rw [h0] at hcount
      simpa using hcount
    · rw [if_neg hp]
      simpa using hcount
  · intro ht
    subst ht
    rw [insert_processed_data_batch, if_neg (by simpa using hne)]
    simp only [Bool.not_true, Bool.false_eq_true, if_false]
    by_cases hp : (preparedBatch data).isEmpty = true
    · rw [if_pos hp]
    · rw [if_neg hp]
  · intro r hr hv
    exact List.mem_filter.mpr ⟨hr, hv⟩

/-- Witness for C2: a batch of one valid and one malformed record submits
exactly one record on success, and returns 0 on a failed transaction. -/
theorem insert_processed_data_batch_spec_witness :
    insert_processed_data_batch true true
      [{ raw_mongo_id := IdVal.oid 1, source := "post" },
       { raw_mongo_id := IdVal.strv "short", source := "post" }] = 1 ∧
    insert_processed_data_batch true false
      [{ raw_mongo_id := IdVal.oid 1, source := "post" },
       { raw_mongo_id := IdVal.strv "short", source := "post" }] = 0 := by
  constructor
  · rw [(insert_processed_data_batch_spec true _ (by simp)).1 rfl]
    decide
  · exact (insert_processed_data_batch_spec false _ (by simp)).2.1 rfl

/-! ## Source gateway (`app/db/mongo_db.py`) -/

/-- A document in the source MongoDB store, restricted to what
`mark_documents_as_processed` touches: its `_id`, the configurable
processed-marker field, and the sibling `<marker>_timestamp` field. -/
structure MDoc where
  oid : Nat
  processed : Bool := false
  processedTs : Option Nat := none
deriving DecidableEq

/-- The `$set` payload of `mark_documents_as_processed` as `update_many`
applies it to one stored document: documents matching the `$in` id filter
get the marker field set to `true` and the timestamp field set to now. -/
def applyMark (now : Nat) (ids : List Nat) (d : MDoc) : MDoc :=
  if ids.contains d.oid then { d with processed := true, processedTs := some now }
  else d

/-- `mark_documents_as_processed` from `app/db/mongo_db.py`. `collOk`
false models `mongo_reader.collection is None`; `markFlag` is
`settings.mark_as_processed_in_mongo`; `now` is `datetime.utcnow()`.
Returns the updated store and `update_many`'s `modified_count`: the
number of matched documents whose stored value actually changed. -/
def mark_documents_as_processed (collOk markFlag : Bool) (now : Nat)
    (store : List MDoc) (document_ids : List Nat) : List MDoc × Nat :=
  if !collOk then (store, 0)
  else if !markFlag then (store, 0)
  else if document_ids.isEmpty then (store, 0)
  else
    (store.map (applyMark now document_ids),
     store.countP fun d =>
       document_ids.contains d.oid && !(applyMark now document_ids d == d))

/-- C8: `mark_documents_as_processed` is a no-op returning 0 when the
connection is unavailable, when marking is disabled by configuration, and
when the id list is empty; otherwise it sets the processed-marker field
to `true` together with the sibling timestamp field on exactly the
documents matching the given ids, and returns a (modified) count. -/
theorem mark_documents_as_processed_spec (collOk markFlag : Bool) (now : Nat)
    (store : List MDoc) (ids : List Nat) :
    (collOk = false →
      mark_documents_as_processed collOk markFlag now store ids = (store, 0)) ∧
    (markFlag = false →
      mark_documents_as_processed collOk markFlag now store ids = (store, 0)) ∧
    (ids = [] →
      mark_documents_as_processed collOk markFlag now store ids = (store, 0)) ∧
    (collOk = true → markFlag = true → ids ≠ [] →
      (mark_documents_as_processed collOk markFlag now store ids).1 =
        store.map (applyMark now ids) ∧
      (∀ d ∈ store, ids.contains d.oid = true →
        (applyMark now ids d).processed = true ∧
        (applyMark now ids d).processedTs = some now) ∧
      (∀ d ∈ store, ids.contains d.oid = false → applyMark now ids d = d) ∧
      (mark_documents_as_processed collOk markFlag now store ids).2 =
        store.countP fun d => ids.contains d.oid && !(applyMark now ids d == d)) := by
  refine ⟨?_, ?_, ?_, ?_⟩
  · intro h
    subst h
    simp [mark_documents_as_processed]
  · intro h
    subst h
    simp [mark_documents_as_processed]
  · intro h
    subst h
    simp [mark_documents_as_processed]
  · intro hc hm hne
    subst hc
    subst hm
    rw [mark_documents_as_processed, if_neg (by simp), if_neg (by simp),
      if_neg (by simpa using hne)]
    refine ⟨rfl, ?_, ?_, rfl⟩
    · intro d _ hd
      rw [applyMark, if_pos hd]
      exact ⟨rfl, rfl⟩
    · intro d _ hd
      rw [applyMark, if_neg (by rw [hd]; simp)]

/-- Witness for C8: a store with one matching and one non-matching
document; the no-op cases and the marking case at concrete inputs. -/
theorem mark_documents_as_processed_spec_witness :
    mark_documents_as_processed false true 7 [{ oid := 1 }] [1] = ([{ oid := 1 }], 0) ∧
    mark_documents_as_processed true false 7 [{ oid := 1 }] [1] = ([{ oid := 1 }], 0) ∧
    mark_documents_as_processed true true 7 [{ oid := 1 }] [] = ([{ oid := 1 }], 0) ∧
    (mark_documents_as_processed true true 7 [{ oid := 1 }, { oid := 2 }] [1]).1 =
      [{ oid := 1 }, { oid := 2 }].map (applyMark 7 [1]) := by
  refine ⟨?_, ?_, ?_, ?_⟩
  · exact (mark_documents_as_processed_spec false true 7 _ _).1 rfl
  · exact (mark_documents_as_processed_spec true false 7 _ _).2.1 rfl
  · exact (mark_documents_as_processed_spec true true 7 _ _).2.2.1 rfl
  · exact ((mark_documents_as_processed_spec true true 7 _ _).2.2.2 rfl rfl
      (by simp)).1

/-! ## The orchestrator (`app/main_processor.py`,
`scheduled_processing_job`) -/

/-- The outcome `asyncio.gather(..., return_exceptions=True)` reports for
one document: an escaped exception, a `None` (`process_single_document`
caught a failure and logged it), or the `model_dump()` payload of a
successfully processed document. -/
inductive DocResult where
  | exc
  | failed
  | ok (p : ProcessedDocument)
deriving DecidableEq

/-- `processed_batch_data`: the payloads of the successfully processed
documents of a batch, in batch order. -/
def processedOf (results : List DocResult) : List ProcessedDocument :=
  results.filterMap fun r => match r with | .ok p => some p | _ => none

/-- `mongo_ids_for_pg_insert_and_marking`: the `_id`s of the raw documents
whose processing succeeded, kept only when the `_id` is a truthy
ObjectId. -/
def idsOf (raws : List RawDoc) (results : List DocResult) : List Nat :=
  (raws.zip results).filterMap fun dr =>
    match dr.2 with
    | .ok _ =>
      match dr.1.id with
      | some (BVal.oid o) => some o
      | _ => none
    | _ => none

/-- What one iteration of the orchestrator's batch loop did after the
per-document processing: whether and with what it called the sink insert
and the source marking, and the source store it left behind. -/
structure BatchTrace where
  insertedArg : Option (List ProcessedDocument)
  insertResult : Nat
  markedArg : Option (List Nat)
  markResult : Nat
  storeAfter : List MDoc
deriving DecidableEq

/-- One iteration body of the batch loop of `scheduled_processing_job`
(`app/main_processor.py` lines 154–204): collect the gather results,
insert into the sink iff any document was processed, and mark in the
source iff the insert count is positive and eligible ids exist. -/
def runBatch (poolOk txOk collOk markFlag : Bool) (now : Nat) (store : List MDoc)
    (raws : List RawDoc) (results : List DocResult) : BatchTrace :=
  let processed := processedOf results
  let ids := idsOf raws results
  if processed.isEmpty then
    { insertedArg := none, insertResult := 0, markedArg := none, markResult := 0,
      storeAfter := store }
  else
    let n := insert_processed_data_batch poolOk txOk processed
    if 0 < n then
      if ids.isEmpty then
        { insertedArg := some processed, insertResult := n, markedArg := none,
          markResult := 0, storeAfter := store }
      else
        let m := mark_documents_as_processed collOk markFlag now store ids
        { insertedArg := some processed, insertResult := n, markedArg := some ids,
          markResult := m.2, storeAfter := m.1 }
    else
      { insertedArg := some processed, insertResult := n, markedArg := none,
        markResult := 0, storeAfter := store }

/-- `fetch_unprocessed_documents` from `app/db/mongo_db.py`: a missing
connection yields `[]`, and a query that raises (`.error`) is caught and
yields `[]` as well. -/
def fetch_unprocessed_documents (collOk : Bool)
    (query : Except Unit (List RawDoc)) : List RawDoc :=
  if !collOk then []
  else
    match query with
    | .ok docs => docs
    | .error _ => []

/-- How one run of the orchestrator's fetch loop ended. -/
inductive JobEnding where
  | noDocs
  | noCollection
  | fuel
deriving DecidableEq

/-- The trace of one processing cycle: its batch iterations in order, and
how the loop ended (`noDocs` = the sole normal completion, an empty
fetch; `noCollection` = aborted because the collection is unavailable;
`fuel` = the supplied list of query outcomes ran out). -/
structure JobTrace where
  batches : List BatchTrace
  ending : JobEnding
deriving DecidableEq

/-- The fetch–process–insert–mark loop of `scheduled_processing_job`
(`app/main_processor.py` lines 132–204). `queries` supplies the outcome
of the MongoDB query of each successive fetch; `resultsFor` supplies the
per-document gather outcomes for a fetched batch. Each iteration checks
the collection, fetches, stops on an empty batch, and otherwise runs the
batch body and continues with the store it left. -/
def scheduled_processing_job (poolOk txOk collOk markFlag : Bool) (now : Nat)
    (resultsFor : List RawDoc → List DocResult) :
    List MDoc → List (Except Unit (List RawDoc)) → JobTrace
  | _, [] => { batches := [], ending := .fuel }
  | store, q :: qs =>
    if !collOk then { batches := [], ending := .noCollection }
    else
      let raws := fetch_unprocessed_documents collOk q
      if raws.isEmpty then { batches := [], ending := .noDocs }
      else
        let bt := runBatch poolOk txOk collOk markFlag now store raws (resultsFor raws)
        let rest := scheduled_processing_job poolOk txOk collOk markFlag now resultsFor
          bt.storeAfter qs
        { batches := bt :: rest.batches, ending := rest.ending }

/-- C1: in each batch, the orchestrator calls the source-marking step on
the batch's source ids only when `insert_processed_data_batch` returned
at least 1 for the batch's processed documents; when the insert reports
0, no marking call is made and the source store is left unchanged, so the
batch's documents remain unmarked. -/
theorem runBatch_marks_only_after_insert (poolOk txOk collOk markFlag : Bool)
    (now : Nat) (store : List MDoc) (raws : List RawDoc) (results : List DocResult) :
    (insert_processed_data_batch poolOk txOk (processedOf results) = 0 →
      (runBatch poolOk txOk collOk markFlag now store raws results).markedArg = none ∧
      (runBatch poolOk txOk collOk markFlag now store raws results).storeAfter =
        store) ∧
    (∀ ids, (runBatch poolOk txOk collOk markFlag now store raws results).markedArg =
        some ids →
      ids = idsOf raws results ∧
      1 ≤ insert_processed_data_batch poolOk txOk (processedOf results) ∧
      (runBatch poolOk txOk collOk markFlag now store raws results).markResult =
        (mark_documents_as_processed collOk markFlag now store ids).2 ∧
      (runBatch poolOk txOk collOk markFlag now store raws results).storeAfter =
        (mark_documents_as_processed collOk markFlag now store ids).1) := by
  constructor
  · intro h0
    rw [runBatch]
    by_cases hp : (processedOf results).isEmpty = true
    · rw [if_pos hp]
      exact ⟨rfl, rfl⟩
    · rw [if_neg hp, if_neg (by rw [h0]; simp)]
      exact ⟨rfl, rfl⟩
  · intro ids hids
    rw [runBatch] at hids ⊢
    by_cases hp : (processedOf results).isEmpty = true
    · rw [if_pos hp] at hids
      exact absurd hids (by simp)
    · rw [if_neg hp] at hids ⊢
      by_cases hn : 0 < insert_processed_data_batch poolOk txOk (processedOf results)
      · rw [if_pos hn] at hids ⊢
        by_cases hi : (idsOf raws results).isEmpty = true
        · rw [if_pos hi] at hids
          exact absurd hids (by simp)
        · rw [if_neg hi] at hids ⊢
          simp at hids
          subst hids
          exact ⟨rfl, hn, rfl, rfl⟩
      · rw [if_neg hn] at hids
        exact absurd hids (by simp)

/-- Witness for C1: one processed document; a failing transaction marks
nothing and leaves the store unchanged, while a successful one marks
exactly the batch's id. -/
theorem runBatch_marks_only_after_insert_witness :
    ((runBatch true false true true 7 [{ oid := 3 }]
        [{ id := some (BVal.oid 3) }]
        [DocResult.ok { raw_mongo_id := IdVal.oid 3, source := "post" }]).markedArg =
      none ∧
     (runBatch true false true true 7 [{ oid := 3 }]
        [{ id := some (BVal.oid 3) }]
        [DocResult.ok { raw_mongo_id := IdVal.oid 3, source := "post" }]).storeAfter =
      [{ oid := 3 }]) ∧
    ((runBatch true true true true 7 [{ oid := 3 }]
        [{ id := some (BVal.oid 3) }]
        [DocResult.ok { raw_mongo_id := IdVal.oid 3, source := "post" }]).markedArg =
        some [3] →
      [3] = idsOf [{ id := some (BVal.oid 3) }]
        [DocResult.ok { raw_mongo_id := IdVal.oid 3, source := "post" }]) := by
  constructor
  · exact (runBatch_marks_only_after_insert true false true true 7 _ _ _).1 (by decide)
  · intro h
    exact ((runBatch_marks_only_after_insert true true true true 7 _ _ _).2 [3] h).1

theorem processedOf_length (results : List DocResult) :
    (processedOf results).length =
      results.countP fun r => match r with | .ok _ => true | _ => false := by
  induction results with
  | nil => rfl
  | cons r rs ih =>
    rcases r with _ | _ | p <;>
      simp [processedOf, List.filterMap_cons, List.countP_cons] <;>
      simp [processedOf] at ih <;> omega

/-- C3: a per-document transformation failure is localized: the failing
document contributes nothing to the batch's processed documents or to the
ids submitted for marking, while every successfully processed document of
the same batch is still collected, handed to the sink insert, and its id
still submitted for marking; the failure aborts neither the batch nor the
cycle (the batch body still runs its insert and mark steps). -/
theorem runBatch_failure_localized (poolOk txOk collOk markFlag : Bool) (now : Nat)
    (store : List MDoc) (raws : List RawDoc) (results : List DocResult) (i : Nat)
    (hlen : results.length = raws.length)
    (hinj : ∀ k₁ k₂ (h₁ : k₁ < raws.length) (h₂ : k₂ < raws.length) o,
      (raws.get ⟨k₁, h₁⟩).id = some (BVal.oid o) →
      (raws.get ⟨k₂, h₂⟩).id = some (BVal.oid o) → k₁ = k₂)
    (hi : i < results.length)
    (hfail : results.get ⟨i, hi⟩ = DocResult.exc ∨
      results.get ⟨i, hi⟩ = DocResult.failed) :
    (∀ o, (raws.get ⟨i, hlen ▸ hi⟩).id = some (BVal.oid o) →
      o ∉ idsOf raws results) ∧
    (∀ j (hj : j < results.length) p, results.get ⟨j, hj⟩ = DocResult.ok p →
      p ∈ processedOf results ∧
      ∀ o, (raws.get ⟨j, hlen ▸ hj⟩).id = some (BVal.oid o) →
        o ∈ idsOf raws results) ∧
    (processedOf results).length =
      results.countP (fun r => match r with | .ok _ => true | _ => false) ∧
    (processedOf results ≠ [] →
      (runBatch poolOk txOk collOk markFlag now store raws results).insertedArg =
        some (processedOf results)) ∧
    (processedOf results ≠ [] →
      1 ≤ insert_processed_data_batch poolOk txOk (processedOf results) →
      idsOf raws results ≠ [] →
      (runBatch poolOk txOk collOk markFlag now store raws results).markedArg =
        some (idsOf raws results)) := by
  refine ⟨?_, ?_, processedOf_length results, ?_, ?_⟩
  · intro o ho hmem
    rw [idsOf, List.mem_filterMap] at hmem
    obtain ⟨dr, hdr, hf⟩ := hmem
    obtain ⟨⟨k, hk⟩, hget⟩ := List.mem_iff_get.mp hdr
    rw [List.get_zip] at hget
    subst hget
    rcases hr : results.get ⟨k, List.lt_length_right_of_zip hk⟩ with _ | _ | p
    · rw [hr] at hf
      simp at hf
    · rw [hr] at hf
      simp at hf
    · rw [hr] at hf
      rcases hid : (raws.get ⟨k, List.lt_length_left_of_zip hk⟩).id with _ | v
      · rw [hid] at hf
        simp at hf
      · rcases v with o' | s | n | b
        · rw [hid] at hf
          simp only [Option.some.injEq] at hf
          subst hf
          have hk_eq : k = i :=
            hinj k i (List.lt_length_left_of_zip hk) (hlen ▸ hi) o' hid ho
          subst hk_eq
          rw [hr] at hfail
          rcases hfail with h | h <;> exact absurd h (by simp)
        · rw [hid] at hf
          simp at hf
        · rw [hid] at hf
          simp at hf
        · rw [hid] at hf
          simp at hf
  · intro j hj p hok
    constructor
    · rw [processedOf, List.mem_filterMap]
      exact ⟨results.get ⟨j, hj⟩, List.get_mem _ _ _, by rw [hok]⟩
    · intro o ho
      rw [idsOf, List.mem_filterMap]
      refine ⟨(raws.get ⟨j, hlen ▸ hj⟩, results.get ⟨j, hj⟩), ?_, ?_⟩
      · rw [List.mem_iff_get]
        refine ⟨⟨j, by rw [List.length_zip]; omega⟩, ?_⟩
        rw [List.get_zip]
      · rw [hok, ho]
  · intro hne
    rw [runBatch, if_neg (by simpa [List.isEmpty_iff] using hne)]
    by_cases hn : 0 < insert_processed_data_batch poolOk txOk (processedOf results)
    · rw [if_pos hn]
      by_cases hi2 : (idsOf raws results).isEmpty = true
      · rw [if_pos hi2]
      · rw [if_neg hi2]
    · rw [if_neg hn]
  · intro hne hn hids
    have hn' : 0 < insert_processed_data_batch poolOk txOk (processedOf results) := hn
    rw [runBatch, if_neg (by simpa [List.isEmpty_iff] using hne), if_pos hn',
      if_neg (by simpa [List.isEmpty_iff] using hids)]

/-- Witness for C3: a two-document batch whose first document fails:
its id is absent from the ids submitted for marking. -/
theorem runBatch_failure_localized_witness :
    (1 : Nat) ∉ idsOf [{ id := some (BVal.oid 1) }] [DocResult.failed] := by
  have h := (runBatch_failure_localized true true true true 7 []
    [{ id := some (BVal.oid 1) }] [DocResult.failed]
    0 (by decide)
    (by
      intro k₁ k₂ h₁ h₂ o _ _
      have e₁ : k₁ < 1 := by simpa using h₁
      have e₂ : k₂ < 1 := by simpa using h₂
      omega)
    (by decide) (Or.inr (by decide))).1
  exact h 1 (by decide)

/-- C10: an exception in the MongoDB query inside
`fetch_unprocessed_documents` is caught and returned as the empty list,
and the orchestrator then ends the cycle exactly as it does on source
exhaustion: the job trace on a raising query is identical to the trace on
a successful empty query, ending in normal completion (`noDocs`), with no
connectivity abort. -/
theorem fetch_error_ends_like_exhaustion (poolOk txOk markFlag : Bool) (now : Nat)
    (resultsFor : List RawDoc → List DocResult) (store : List MDoc)
    (qs : List (Except Unit (List RawDoc))) :
    fetch_unprocessed_documents true (Except.error ()) = ([] : List RawDoc) ∧
    scheduled_processing_job poolOk txOk true markFlag now resultsFor store
      (Except.error () :: qs) =
      scheduled_processing_job poolOk txOk true markFlag now resultsFor store
        (Except.ok [] :: qs) ∧
    (scheduled_processing_job poolOk txOk true markFlag now resultsFor store
      (Except.error () :: qs)).ending = JobEnding.noDocs := by
  exact ⟨rfl, rfl, rfl⟩
